import Mathlib

/-!
Shallow embedding of `src/main.rs` of the `trampoline-lc` repository: a
call-by-value untyped lambda-calculus evaluator written twice, once as a
naive recursive interpreter (`eval_without_trampoline`) and once as a
trampolined interpreter (`eval_with_trampoline` plus the iterative driver
`Trampoline.run`).

Modelling conventions:
- Rust `HashMap<String, Value>` becomes `Context`, an association structure
  with unique keys; `Context.insert` replaces the value of an existing key,
  exactly as `HashMap::insert` does, and `Context.lookup` is `HashMap::get`.
- The Rust code aborts with a panic ("Variable {name} not found") on an
  unbound variable.  The naive evaluator's panic is modelled by the
  `Res.unbound` outcome; the trampolined constructor's panic, which happens
  while *building* a trampoline, is modelled by `Except.error` in
  `eval_with_trampoline`.
- Both interpreters may fail to terminate, so they take a fuel argument;
  `Res.timeout` means the fuel ran out, never an answer of the program.
- The only closure the Rust code ever stores in `Trampoline::Continue` is
  the application step capturing `f`, `arg` and `context`, so the
  trampoline is defunctionalised: `Trampoline.Continue f a ctx` stands for
  that closure, and `appStep` is its body (in the source's exact order:
  build the trampoline for `f`, build the trampoline for `arg`, run the
  first, run the second, then build — not run — the body's trampoline).
-/

inductive Expr : Type where
  | Var : String → Expr
  | Abs : String → Expr → Expr
  | App : Expr → Expr → Expr

mutual

inductive Value : Type where
  | VClosure : Context → String → Expr → Value

inductive Context : Type where
  | nil : Context
  | cons : String → Value → Context → Context

end

/-- `HashMap::get` on the context: the value bound to `name`, if any. -/
def Context.lookup : Context → String → Option Value
  | .nil, _ => none
  | .cons k v rest, name => if k = name then some v else Context.lookup rest name

/-- `HashMap::insert` on the context: replaces the binding of an existing
key, otherwise adds a fresh one. -/
def Context.insert : Context → String → Value → Context
  | .nil, k, v => .cons k v .nil
  | .cons k0 v0 rest, k, v =>
      if k0 = k then .cons k v rest else .cons k0 v0 (Context.insert rest k v)

/-- Outcome of running an evaluator with a given fuel: a value, the panic
on an unbound variable (carrying the variable's name), or fuel exhaustion. -/
inductive Res : Type where
  | ok : Value → Res
  | unbound : String → Res
  | timeout : Res

/-- `eval_without_trampoline` from the source, with fuel: direct structural
recursion; `App` evaluates the function, then the argument, then the body
under the closure's captured context extended with the one binding. -/
def eval_without_trampoline : Nat → Expr → Context → Res
  | 0, _, _ => .timeout
  | _ + 1, .Var name, ctx =>
      match ctx.lookup name with
      | some v => .ok v
      | none => .unbound name
  | _ + 1, .Abs param body, ctx => .ok (.VClosure ctx param body)
  | fuel + 1, .App f a, ctx =>
      match eval_without_trampoline fuel f ctx with
      | .ok (.VClosure cctx param body) =>
          match eval_without_trampoline fuel a ctx with
          | .ok argv => eval_without_trampoline fuel body (cctx.insert param argv)
          | .unbound n => .unbound n
          | .timeout => .timeout
      | .unbound n => .unbound n
      | .timeout => .timeout

/-- The trampoline: `Complete` carries a final value; `Continue f a ctx` is
the pending application step of the source (the only closure the source
ever wraps in `Trampoline::Continue`), capturing the two subterms and the
context. -/
inductive Trampoline : Type where
  | Continue : Expr → Expr → Context → Trampoline
  | Complete : Value → Trampoline

/-- `eval_with_trampoline` from the source.  It never recurses: `Var` looks
the name up immediately (panicking — `.error` — right here when unbound),
`Abs` completes with a closure, and `App` defers everything into a pending
step. -/
def eval_with_trampoline : Expr → Context → Except String Trampoline
  | .Var name, ctx =>
      match ctx.lookup name with
      | some v => .ok (.Complete v)
      | none => .error name
  | .Abs param body, ctx => .ok (.Complete (.VClosure ctx param body))
  | .App f a, ctx => .ok (.Continue f a ctx)

/-- Outcome of invoking one pending step: the next trampoline, a panic, or
fuel exhaustion inside one of the nested runs. -/
inductive StepRes : Type where
  | next : Trampoline → StepRes
  | unbound : String → StepRes
  | timeout : StepRes

/-- `Trampoline::run` from the source, with fuel charged once per driver
iteration: `Complete` returns its value, a pending step is invoked — in the
source's order: build the trampoline for `f`, build the one for `arg`, run
the first to a closure, run the second to a value, then build the body's
trampoline — and the driver continues on the step's result. -/
def Trampoline.run : Nat → Trampoline → Res
  | _, .Complete v => .ok v
  | 0, .Continue _ _ _ => .timeout
  | fuel + 1, .Continue f a ctx =>
      match eval_with_trampoline f ctx with
      | .error n => .unbound n
      | .ok tf =>
          match eval_with_trampoline a ctx with
          | .error n => .unbound n
          | .ok ta =>
              match Trampoline.run fuel tf with
              | .ok (.VClosure cctx param body) =>
                  match Trampoline.run fuel ta with
                  | .ok argv =>
                      match eval_with_trampoline body (cctx.insert param argv) with
                      | .ok tnext => Trampoline.run fuel tnext
                      | .error n => .unbound n
                  | .unbound n => .unbound n
                  | .timeout => .timeout
              | .unbound n => .unbound n
              | .timeout => .timeout

/-- The body of the anonymous closure stored in `Trampoline::Continue`, as
its own function: what invoking the pending step for `App f a` under `ctx`
does, given fuel for the two nested runs. -/
def appStep (fuel : Nat) (f a : Expr) (ctx : Context) : StepRes :=
  match eval_with_trampoline f ctx with
  | .error n => .unbound n
  | .ok tf =>
      match eval_with_trampoline a ctx with
      | .error n => .unbound n
      | .ok ta =>
          match Trampoline.run fuel tf with
          | .ok (.VClosure cctx param body) =>
              match Trampoline.run fuel ta with
              | .ok argv =>
                  match eval_with_trampoline body (cctx.insert param argv) with
                  | .ok tnext => .next tnext
                  | .error n => .unbound n
              | .unbound n => .unbound n
              | .timeout => .timeout
          | .unbound n => .unbound n
          | .timeout => .timeout

/-- `run` on a completed trampoline returns the carried value, whatever the
fuel: `Complete` is terminal. -/
theorem run_complete (fuel : Nat) (v : Value) :
    Trampoline.run fuel (.Complete v) = .ok v := by
  cases fuel <;> rfl

/-- A positive-fuel driver iteration on a pending step is exactly: invoke
the step, then keep driving its result. -/
theorem run_continue (fuel : Nat) (f a : Expr) (ctx : Context) :
    Trampoline.run (fuel + 1) (.Continue f a ctx) =
      match appStep fuel f a ctx with
      | .next t => Trampoline.run fuel t
      | .unbound n => .unbound n
      | .timeout => .timeout := by
  cases hf : eval_with_trampoline f ctx with
  | error n => simp [Trampoline.run, appStep, hf]
  | ok tf =>
    cases ha : eval_with_trampoline a ctx with
    | error n => simp [Trampoline.run, appStep, hf, ha]
    | ok ta =>
      cases hrf : Trampoline.run fuel tf with
      | ok vf =>
        cases vf with
        | VClosure cctx param body =>
          cases hra : Trampoline.run fuel ta with
          | ok argv =>
            cases hb : eval_with_trampoline body (cctx.insert param argv) with
            | error n => simp [Trampoline.run, appStep, hf, ha, hrf, hra, hb]
            | ok tnext => simp [Trampoline.run, appStep, hf, ha, hrf, hra, hb]
          | unbound n => simp [Trampoline.run, appStep, hf, ha, hrf, hra]
          | timeout => simp [Trampoline.run, appStep, hf, ha, hrf, hra]
      | unbound n => simp [Trampoline.run, appStep, hf, ha, hrf]
      | timeout => simp [Trampoline.run, appStep, hf, ha, hrf]

/-- C1: if the naive evaluator terminates without error on `(e, ctx)` then
constructing the trampoline for `(e, ctx)` succeeds and running it (with
the same fuel) terminates with a structurally equal value: same parameter
name, same body term, same captured-environment bindings (plain equality
of `Value`). -/
theorem trampolined_matches_naive :
    ∀ (fuel : Nat) (e : Expr) (ctx : Context) (v : Value),
      eval_without_trampoline fuel e ctx = .ok v →
      ∃ t, eval_with_trampoline e ctx = .ok t ∧ Trampoline.run fuel t = .ok v := by
  intro fuel
  induction fuel with
  | zero =>
    intro e ctx v h
    simp [eval_without_trampoline] at h
  | succ fuel ih =>
    intro e ctx v h
    cases e with
    | Var name =>
      cases hl : ctx.lookup name with
      | none => simp [eval_without_trampoline, hl] at h
      | some v0 =>
        simp [eval_without_trampoline, hl] at h
        subst h
        refine ⟨.Complete v0, ?_, run_complete _ _⟩
        simp [eval_with_trampoline, hl]
    | Abs param body =>
      simp [eval_without_trampoline] at h
      subst h
      exact ⟨.Complete (.VClosure ctx param body), rfl, run_complete _ _⟩
    | App f a =>
      simp only [eval_without_trampoline] at h
      cases hf : eval_without_trampoline fuel f ctx with
      | timeout => simp [hf] at h
      | unbound n => simp [hf] at h
      | ok vf =>
        cases vf with
        | VClosure cctx param body =>
          simp only [hf] at h
          cases ha : eval_without_trampoline fuel a ctx with
          | timeout => simp [ha] at h
          | unbound n => simp [ha] at h
          | ok argv =>
            simp only [ha] at h
            obtain ⟨tf, htf, hrf⟩ := ih f ctx _ hf
            obtain ⟨ta, hta, hra⟩ := ih a ctx _ ha
            obtain ⟨tb, htb, hrb⟩ := ih body _ _ h
            refine ⟨.Continue f a ctx, rfl, ?_⟩
            rw [run_continue]
            simp [appStep, htf, hta, hrf, hra, htb]
            exact hrb

/-- C1 witness: the identity application from the spec's first concrete
scenario, at fuel 3. -/
theorem trampolined_matches_naive_witness :
    ∃ t, eval_with_trampoline
        (.App (.Abs "x" (.Var "x")) (.Abs "y" (.Var "y"))) .nil = .ok t ∧
      Trampoline.run 3 t = .ok (.VClosure .nil "y" (.Var "y")) :=
  trampolined_matches_naive 3 (.App (.Abs "x" (.Var "x")) (.Abs "y" (.Var "y")))
    .nil (.VClosure .nil "y" (.Var "y")) rfl

/-- The self-application abstraction of the Omega term. -/
def omegaAbs : Expr := .Abs "x" (.App (.Var "x") (.Var "x"))

/-- The Omega term from the source's `not_stack_overflow` test: apply the
self-application abstraction to itself. -/
def omegaExpr : Expr := .App omegaAbs omegaAbs

/-- The closure both halves of Omega evaluate to under the empty context. -/
def omegaValue : Value := .VClosure .nil "x" (.App (.Var "x") (.Var "x"))

/-- The context in scope of Omega's body: just `x` bound to `omegaValue`. -/
def omegaCtx : Context := .cons "x" omegaValue .nil

/-- The trampoline `eval_with_trampoline` builds for Omega. -/
def omegaTramp0 : Trampoline := .Continue omegaAbs omegaAbs .nil

/-- The trampoline Omega's first step hands back, and from then on every
later step hands back again: a fixed point of the driver. -/
def omegaTramp1 : Trampoline := .Continue (.Var "x") (.Var "x") omegaCtx

theorem appStep_omega0 (fuel : Nat) :
    appStep fuel omegaAbs omegaAbs .nil = .next omegaTramp1 := by
  cases fuel <;> rfl

theorem appStep_omega1 (fuel : Nat) :
    appStep fuel (.Var "x") (.Var "x") omegaCtx = .next omegaTramp1 := by
  cases fuel <;> rfl

theorem run_omega1_timeout : ∀ n, Trampoline.run n omegaTramp1 = .timeout := by
  intro n
  induction n with
  | zero => rfl
  | succ n ih =>
    show Trampoline.run (n + 1) (.Continue (.Var "x") (.Var "x") omegaCtx) = .timeout
    rw [run_continue, appStep_omega1]
    exact ih

/-- C2: the trampolined evaluation of Omega never completes.  Constructing
the trampoline succeeds and yields the pending `omegaTramp0`; invoking the
pending step always yields another pending trampoline (`omegaTramp1`, which
steps to itself), never a `Complete`; so for every number `n` of driver
iterations `run` has still not returned (it is out of fuel, not done). -/
theorem omega_never_completes :
    eval_with_trampoline omegaExpr .nil = .ok omegaTramp0 ∧
    (∀ fuel, appStep fuel omegaAbs omegaAbs .nil = .next omegaTramp1) ∧
    (∀ fuel, appStep fuel (.Var "x") (.Var "x") omegaCtx = .next omegaTramp1) ∧
    (∀ n, Trampoline.run n omegaTramp0 = .timeout) ∧
    (∀ n, Trampoline.run n omegaTramp1 = .timeout) := by
  refine ⟨rfl, appStep_omega0, appStep_omega1, ?_, run_omega1_timeout⟩
  intro n
  cases n with
  | zero => rfl
  | succ n =>
    show Trampoline.run (n + 1) (.Continue omegaAbs omegaAbs .nil) = .timeout
    rw [run_continue, appStep_omega0]
    exact run_omega1_timeout n

/-- C4: when an application is performed, the body is evaluated under the
closure's captured context extended with exactly the one binding
`param ↦ argv` — not under the caller's context — in the naive evaluator
and in the trampolined step alike. -/
theorem application_binding_environment (fuel : Nat) (f a body : Expr)
    (ctx cctx : Context) (param : String) (argv : Value)
    (hf : eval_without_trampoline fuel f ctx = .ok (.VClosure cctx param body))
    (ha : eval_without_trampoline fuel a ctx = .ok argv) :
    eval_without_trampoline (fuel + 1) (.App f a) ctx =
      eval_without_trampoline fuel body (cctx.insert param argv) ∧
    (∀ tf ta, eval_with_trampoline f ctx = .ok tf →
        eval_with_trampoline a ctx = .ok ta →
        Trampoline.run fuel tf = .ok (.VClosure cctx param body) →
        Trampoline.run fuel ta = .ok argv →
        appStep fuel f a ctx =
          match eval_with_trampoline body (cctx.insert param argv) with
          | .ok t => .next t
          | .error n => .unbound n) := by
  constructor
  · simp [eval_without_trampoline, hf, ha]
  · intro tf ta htf hta hrf hra
    simp [appStep, htf, hta, hrf, hra]

/-- C4 witness: applying the identity to the identity binds only `"x"`. -/
theorem application_binding_environment_witness :
    eval_without_trampoline 2
        (.App (.Abs "x" (.Var "x")) (.Abs "y" (.Var "y"))) .nil =
      eval_without_trampoline 1 (.Var "x")
        (Context.insert .nil "x" (.VClosure .nil "y" (.Var "y"))) :=
  (application_binding_environment 1 (.Abs "x" (.Var "x")) (.Abs "y" (.Var "y"))
    (.Var "x") .nil .nil "x" (.VClosure .nil "y" (.Var "y")) rfl rfl).1

/-- C5: a variable with no binding fails with the unbound-variable error
naming that variable under both evaluators, and in particular `Var "x"`
under the empty context; the error (`Res.unbound` / `Except.error`) is the
single error kind of the model and always carries the variable's name. -/
theorem unbound_variable_error :
    (∀ (name : String) (ctx : Context) (fuel : Nat), ctx.lookup name = none →
        eval_without_trampoline (fuel + 1) (.Var name) ctx = .unbound name ∧
        eval_with_trampoline (.Var name) ctx = .error name) ∧
    eval_without_trampoline 1 (.Var "x") .nil = .unbound "x" ∧
    eval_with_trampoline (.Var "x") .nil = .error "x" := by
  refine ⟨?_, rfl, rfl⟩
  intro name ctx fuel h
  constructor
  · simp [eval_without_trampoline, h]
  · simp [eval_with_trampoline, h]

/-- C5 witness: the spec's concrete case, `Var "x"` in the empty context. -/
theorem unbound_variable_error_witness :
    eval_without_trampoline 1 (.Var "x") .nil = .unbound "x" ∧
    eval_with_trampoline (.Var "x") .nil = .error "x" :=
  unbound_variable_error.1 "x" .nil 0 rfl

/-- C6: the trampolined evaluator is immediately `Complete` on every bound
`Var` (with the looked-up value) and on every `Abs` (with the closure over
the current context), and is `Pending` (`Continue`) on every `App`. -/
theorem trampoline_construction_shapes :
    (∀ (name : String) (ctx : Context) (v : Value), ctx.lookup name = some v →
        eval_with_trampoline (.Var name) ctx = .ok (.Complete v)) ∧
    (∀ (param : String) (body : Expr) (ctx : Context),
        eval_with_trampoline (.Abs param body) ctx =
          .ok (.Complete (.VClosure ctx param body))) ∧
    (∀ (f a : Expr) (ctx : Context),
        eval_with_trampoline (.App f a) ctx = .ok (.Continue f a ctx)) := by
  refine ⟨?_, fun _ _ _ => rfl, fun _ _ _ => rfl⟩
  intro name ctx v h
  simp [eval_with_trampoline, h]

/-- C6 witness: a bound variable completes immediately with its value. -/
theorem trampoline_construction_shapes_witness :
    eval_with_trampoline (.Var "x")
        (.cons "x" (.VClosure .nil "y" (.Var "y")) .nil) =
      .ok (.Complete (.VClosure .nil "y" (.Var "y"))) :=
  trampoline_construction_shapes.1 "x"
    (.cons "x" (.VClosure .nil "y" (.Var "y")) .nil)
    (.VClosure .nil "y" (.Var "y")) rfl

/-- C7: the driver-loop equations: `run` on `Complete v` returns `v` for
any fuel (`Complete` is terminal), and a positive-fuel `run` on a pending
step invokes the step once and keeps driving its result. -/
theorem run_driver_equations :
    (∀ (fuel : Nat) (v : Value), Trampoline.run fuel (.Complete v) = .ok v) ∧
    (∀ (fuel : Nat) (f a : Expr) (ctx : Context),
        Trampoline.run (fuel + 1) (.Continue f a ctx) =
          match appStep fuel f a ctx with
          | .next t => Trampoline.run fuel t
          | .unbound n => .unbound n
          | .timeout => .timeout) :=
  ⟨run_complete, run_continue⟩

theorem lookup_insert_self : ∀ (ctx : Context) (k : String) (v : Value),
    (ctx.insert k v).lookup k = some v
  | .nil, k, v => by simp [Context.insert, Context.lookup]
  | .cons k0 v0 rest, k, v => by
    by_cases h : k0 = k
    · simp [Context.insert, Context.lookup, h]
    · simp [Context.insert, Context.lookup, h, lookup_insert_self rest k v]

theorem lookup_insert_other : ∀ (ctx : Context) (k k2 : String) (v : Value),
    k2 ≠ k → (ctx.insert k v).lookup k2 = ctx.lookup k2
  | .nil, k, k2, v, h => by
    simp [Context.insert, Context.lookup, Ne.symm h]
  | .cons k0 v0 rest, k, k2, v, h => by
    by_cases h0 : k0 = k
    · subst h0
      simp [Context.insert, Context.lookup, Ne.symm h]
    · simp only [Context.insert, if_neg h0, Context.lookup]
      by_cases h2 : k0 = k2
      · simp [h2]
      · simp [h2, lookup_insert_other rest k k2 v h]

/-- C8: extending a context gives the new binding precedence on its own
key, leaves every other key's binding as before (and, the functions being
pure, the original context itself is untouched); consequently, in nested
abstractions reusing one parameter name, the innermost binding shadows the
outer one — `((λx. λx. x) (λa. a)) (λb. b)` evaluates to `λb. b`'s closure
under both evaluators — and no binding of the call leaks into the result's
captured environment. -/
theorem environment_extension :
    (∀ (ctx : Context) (k : String) (v : Value),
        (ctx.insert k v).lookup k = some v) ∧
    (∀ (ctx : Context) (k k2 : String) (v : Value), k2 ≠ k →
        (ctx.insert k v).lookup k2 = ctx.lookup k2) ∧
    eval_without_trampoline 5
        (.App (.App (.Abs "x" (.Abs "x" (.Var "x"))) (.Abs "a" (.Var "a")))
          (.Abs "b" (.Var "b"))) .nil = .ok (.VClosure .nil "b" (.Var "b")) ∧
    Trampoline.run 5
        (.Continue (.App (.Abs "x" (.Abs "x" (.Var "x"))) (.Abs "a" (.Var "a")))
          (.Abs "b" (.Var "b")) .nil) = .ok (.VClosure .nil "b" (.Var "b")) :=
  ⟨lookup_insert_self, lookup_insert_other, rfl, rfl⟩

/-- C8 witness: precedence on the inserted key and preservation of a
distinct key, at concrete contexts. -/
theorem environment_extension_witness :
    (Context.insert .nil "x" (.VClosure .nil "y" (.Var "y"))).lookup "x" =
      some (.VClosure .nil "y" (.Var "y")) ∧
    (Context.insert .nil "x" (.VClosure .nil "y" (.Var "y"))).lookup "z" =
      Context.lookup .nil "z" :=
  ⟨environment_extension.1 .nil "x" (.VClosure .nil "y" (.Var "y")),
   environment_extension.2.1 .nil "x" "z" (.VClosure .nil "y" (.Var "y"))
     (by decide)⟩

/-- C10: in the trampolined evaluator the unbound-variable failure for a
`Var` node happens while `eval_with_trampoline` builds the trampoline —
the construction itself errors — before `run` is ever invoked on a
result. -/
theorem unbound_fails_at_construction (name : String) (ctx : Context)
    (h : ctx.lookup name = none) :
    eval_with_trampoline (.Var name) ctx = .error name := by
  simp [eval_with_trampoline, h]

/-- C10 witness: `Var "q"` under the empty context errors at construction. -/
theorem unbound_fails_at_construction_witness :
    eval_with_trampoline (.Var "q") .nil = .error "q" :=
  unbound_fails_at_construction "q" .nil rfl

/-- C3 counterexample: on `(App (App (Var "z") (Var "z")) (Var "y"))` under
the empty context the naive evaluator fails from the function subterm with
the error naming `"z"`, but the trampolined evaluator fails with the error
naming `"y"`: the pending step builds the argument's trampoline — looking
`"y"` up — before it ever runs the function's trampoline, so a failure of
the argument surfaces even though evaluating the function subterm fails. -/
theorem application_order_counterexample :
    eval_without_trampoline 10
        (.App (.App (.Var "z") (.Var "z")) (.Var "y")) .nil = .unbound "z" ∧
    eval_with_trampoline (.App (.App (.Var "z") (.Var "z")) (.Var "y")) .nil =
      .ok (.Continue (.App (.Var "z") (.Var "z")) (.Var "y") .nil) ∧
    Trampoline.run 10
        (.Continue (.App (.Var "z") (.Var "z")) (.Var "y") .nil) =
      .unbound "y" :=
  ⟨rfl, rfl, rfl⟩

/-- C3 amended: the naive evaluator fully evaluates the function subterm
first — its failure or divergence preempts any evaluation of the argument.
The trampolined step constructs the trampolines for the function and then
for the argument before running either, so an unbound-variable failure
raised while constructing the argument's trampoline surfaces before the
function's trampoline is run; once both constructions succeed, the
function's trampoline is fully run to a closure — its failure or
divergence preempting the run of the argument — then the argument's, and
only then is the body entered. -/
theorem application_order_amended (fuel : Nat) (f a : Expr) (ctx : Context) :
    (∀ n, eval_without_trampoline fuel f ctx = .unbound n →
        eval_without_trampoline (fuel + 1) (.App f a) ctx = .unbound n) ∧
    (eval_without_trampoline fuel f ctx = .timeout →
        eval_without_trampoline (fuel + 1) (.App f a) ctx = .timeout) ∧
    (∀ n, eval_with_trampoline f ctx = .error n →
        appStep fuel f a ctx = .unbound n) ∧
    (∀ tf n, eval_with_trampoline f ctx = .ok tf →
        eval_with_trampoline a ctx = .error n →
        appStep fuel f a ctx = .unbound n) ∧
    (∀ tf ta n, eval_with_trampoline f ctx = .ok tf →
        eval_with_trampoline a ctx = .ok ta →
        Trampoline.run fuel tf = .unbound n →
        appStep fuel f a ctx = .unbound n) ∧
    (∀ tf ta, eval_with_trampoline f ctx = .ok tf →
        eval_with_trampoline a ctx = .ok ta →
        Trampoline.run fuel tf = .timeout →
        appStep fuel f a ctx = .timeout) := by
  refine ⟨?_, ?_, ?_, ?_, ?_, ?_⟩
  · intro n h
    simp [eval_without_trampoline, h]
  · intro h
    simp [eval_without_trampoline, h]
  · intro n h
    simp [appStep, h]
  · intro tf n htf hta
    simp [appStep, htf, hta]
  · intro tf ta n htf hta hrf
    simp [appStep, htf, hta, hrf]
  · intro tf ta htf hta hrf
    simp [appStep, htf, hta, hrf]

/-- C3 amended witness: a failing function subterm preempts the argument in
the naive evaluator and in the run phase of the step; a Variable argument's
lookup failure surfaces during the step's construction phase. -/
theorem application_order_amended_witness :
    eval_without_trampoline 2 (.App (.Var "z") (.Var "w")) .nil = .unbound "z" ∧
    appStep 3 (.Var "z") (.Var "w") .nil = .unbound "z" ∧
    appStep 3 (.Abs "p" (.Var "p")) (.Var "w") .nil = .unbound "w" :=
  ⟨(application_order_amended 1 (.Var "z") (.Var "w") .nil).1 "z" rfl,
   (application_order_amended 3 (.Var "z") (.Var "w") .nil).2.2.1 "z" rfl,
   (application_order_amended 3 (.Abs "p" (.Var "p")) (.Var "w") .nil).2.2.2.1
     (.Complete (.VClosure .nil "p" (.Var "p"))) "w" rfl rfl⟩

theorem eval_without_trampoline_mono :
    ∀ (fuel fuel2 : Nat), fuel ≤ fuel2 → ∀ (e : Expr) (ctx : Context),
      eval_without_trampoline fuel e ctx ≠ .timeout →
      eval_without_trampoline fuel2 e ctx = eval_without_trampoline fuel e ctx := by
  intro fuel
  induction fuel with
  | zero =>
    intro fuel2 hle e ctx hnt
    exact absurd rfl hnt
  | succ fuel ih =>
    intro fuel2 hle e ctx hnt
    obtain ⟨fuel3, rfl⟩ : ∃ k, fuel2 = k + 1 := ⟨fuel2 - 1, by omega⟩
    have hle3 : fuel ≤ fuel3 := by omega
    cases e with
    | Var name => simp [eval_without_trampoline]
    | Abs param body => simp [eval_without_trampoline]
    | App f a =>
      cases hf : eval_without_trampoline fuel f ctx with
      | timeout =>
        exact absurd (by simp [eval_without_trampoline, hf]) hnt
      | unbound n =>
        have hf2 := ih fuel3 hle3 f ctx (by simp [hf])
        rw [hf] at hf2
        simp [eval_without_trampoline, hf, hf2]
      | ok vf =>
        have hf2 := ih fuel3 hle3 f ctx (by simp [hf])
        rw [hf] at hf2
        cases vf with
        | VClosure cctx param body =>
          cases ha : eval_without_trampoline fuel a ctx with
          | timeout =>
            exact absurd (by simp [eval_without_trampoline, hf, ha]) hnt
          | unbound n =>
            have ha2 := ih fuel3 hle3 a ctx (by simp [ha])
            rw [ha] at ha2
            simp [eval_without_trampoline, hf, hf2, ha, ha2]
          | ok argv =>
            have ha2 := ih fuel3 hle3 a ctx (by simp [ha])
            rw [ha] at ha2
            cases hb : eval_without_trampoline fuel body (cctx.insert param argv) with
            | timeout =>
              exact absurd (by simp [eval_without_trampoline, hf, ha, hb]) hnt
            | unbound n =>
              have hb2 := ih fuel3 hle3 body (cctx.insert param argv) (by simp [hb])
              rw [hb] at hb2
              simp [eval_without_trampoline, hf, hf2, ha, ha2, hb, hb2]
            | ok v =>
              have hb2 := ih fuel3 hle3 body (cctx.insert param argv) (by simp [hb])
              rw [hb] at hb2
              simp [eval_without_trampoline, hf, hf2, ha, ha2, hb, hb2]

theorem run_mono :
    ∀ (fuel fuel2 : Nat), fuel ≤ fuel2 → ∀ (t : Trampoline),
      Trampoline.run fuel t ≠ .timeout →
      Trampoline.run fuel2 t = Trampoline.run fuel t := by
  intro fuel
  induction fuel with
  | zero =>
    intro fuel2 hle t hnt
    cases t with
    | Complete v => rw [run_complete, run_complete]
    | Continue f a ctx => exact absurd rfl hnt
  | succ fuel ih =>
    intro fuel2 hle t hnt
    obtain ⟨fuel3, rfl⟩ : ∃ k, fuel2 = k + 1 := ⟨fuel2 - 1, by omega⟩
    have hle3 : fuel ≤ fuel3 := by omega
    cases t with
    | Complete v => rw [run_complete, run_complete]
    | Continue f a ctx =>
      rw [run_continue] at hnt
      rw [run_continue, run_continue]
      cases htf : eval_with_trampoline f ctx with
      | error n => simp [appStep, htf]
      | ok tf =>
        cases hta : eval_with_trampoline a ctx with
        | error n => simp [appStep, htf, hta]
        | ok ta =>
          cases hrf : Trampoline.run fuel tf with
          | timeout =>
            exact absurd (by simp [appStep, htf, hta, hrf]) hnt
          | unbound n =>
            have hrf2 := ih fuel3 hle3 tf (by simp [hrf])
            rw [hrf] at hrf2
            simp [appStep, htf, hta, hrf, hrf2]
          | ok vf =>
            have hrf2 := ih fuel3 hle3 tf (by simp [hrf])
            rw [hrf] at hrf2
            cases vf with
            | VClosure cctx param body =>
              cases hra : Trampoline.run fuel ta with
              | timeout =>
                exact absurd (by simp [appStep, htf, hta, hrf, hra]) hnt
              | unbound n =>
                have hra2 := ih fuel3 hle3 ta (by simp [hra])
                rw [hra] at hra2
                simp [appStep, htf, hta, hrf, hrf2, hra, hra2]
              | ok argv =>
                have hra2 := ih fuel3 hle3 ta (by simp [hra])
                rw [hra] at hra2
                cases hb : eval_with_trampoline body (cctx.insert param argv) with
                | error n =>
                  simp [appStep, htf, hta, hrf, hrf2, hra, hra2, hb]
                | ok tnext =>
                  have hnt2 : Trampoline.run fuel tnext ≠ .timeout := by
                    intro hT
                    exact absurd (by simp [appStep, htf, hta, hrf, hra, hb, hT]) hnt
                  have h2 := ih fuel3 hle3 tnext hnt2
                  simp [appStep, htf, hta, hrf, hrf2, hra, hra2, hb, h2]

/-- C9: both evaluators are deterministic — two runs of the naive evaluator
on the same `(e, ctx)`, or two runs of the driver on the same trampoline,
that both produce a value produce the same value, whatever the step
budgets; and the evaluators are pure functions, so no evaluation mutates
the context or any enclosing one. -/
theorem evaluation_deterministic :
    (∀ (fuel1 fuel2 : Nat) (e : Expr) (ctx : Context) (v1 v2 : Value),
        eval_without_trampoline fuel1 e ctx = .ok v1 →
        eval_without_trampoline fuel2 e ctx = .ok v2 → v1 = v2) ∧
    (∀ (fuel1 fuel2 : Nat) (t : Trampoline) (v1 v2 : Value),
        Trampoline.run fuel1 t = .ok v1 →
        Trampoline.run fuel2 t = .ok v2 → v1 = v2) := by
  constructor
  · intro fuel1 fuel2 e ctx v1 v2 h1 h2
    have e1 := eval_without_trampoline_mono fuel1 (max fuel1 fuel2)
      (le_max_left _ _) e ctx (by simp [h1])
    have e2 := eval_without_trampoline_mono fuel2 (max fuel1 fuel2)
      (le_max_right _ _) e ctx (by simp [h2])
    rw [h1] at e1
    rw [h2] at e2
    have := e1.symm.trans e2
    simpa using this
  · intro fuel1 fuel2 t v1 v2 h1 h2
    have e1 := run_mono fuel1 (max fuel1 fuel2) (le_max_left _ _) t (by simp [h1])
    have e2 := run_mono fuel2 (max fuel1 fuel2) (le_max_right _ _) t (by simp [h2])
    rw [h1] at e1
    rw [h2] at e2
    have := e1.symm.trans e2
    simpa using this

/-- C9 witness: the identity application evaluated with two different step
budgets by each evaluator gives the same closure. -/
theorem evaluation_deterministic_witness :
    Value.VClosure .nil "y" (.Var "y") = .VClosure .nil "y" (.Var "y") ∧
    Value.VClosure .nil "y" (.Var "y") = .VClosure .nil "y" (.Var "y") :=
  ⟨evaluation_deterministic.1 3 4
      (.App (.Abs "x" (.Var "x")) (.Abs "y" (.Var "y"))) .nil
      (.VClosure .nil "y" (.Var "y")) (.VClosure .nil "y" (.Var "y")) rfl rfl,
   evaluation_deterministic.2 3 7
      (.Continue (.Abs "x" (.Var "x")) (.Abs "y" (.Var "y")) .nil)
      (.VClosure .nil "y" (.Var "y")) (.VClosure .nil "y" (.Var "y")) rfl rfl⟩

example :
    eval_without_trampoline 3
      (.App (.Abs "x" (.Var "x")) (.Abs "y" (.Var "y"))) .nil =
      .ok (.VClosure .nil "y" (.Var "y")) := rfl

example :
    Trampoline.run 3 (.Continue (.Abs "x" (.Var "x")) (.Abs "y" (.Var "y")) .nil) =
      .ok (.VClosure .nil "y" (.Var "y")) := rfl
